import Mathlib

/-!
Verification development for the AFS server address-list core
(fs/afs/addr_list.c): the address-list data model, the text-address
parser, the ordered merge routines and the address cursor, embedded
shallowly as executable Lean definitions, together with theorems about
the properties the design documentation states.

Modelling conventions:
* machine integers are `Nat` (addresses are kept in host order, as the
  values the C code compares after `ntohl`/`ntohs`);
* the populated prefix of the endpoint array is a `List AfsEntry`, so
  `nr_addrs` is the list length (the C code always increments the count
  and writes the slot together);
* the kernel allocator is not modelled (allocation always succeeds);
* loops are given explicit fuel; a result of `none` means the loop did
  not finish within the given fuel, and a statement that holds for every
  fuel value expresses divergence of the loop.
-/

/-- Modelled from the spec: the hard ceiling constant bounding list
capacity (`AFS_MAX_ADDRESSES`, declared in internal.h which is not part
of the sources here).  The spec does not fix its value; the concrete
value is irrelevant to every theorem below. -/
def AFS_MAX_ADDRESSES : Nat := 15

/-- The errno value `EDESTADDRREQ` (destination address required). -/
def EDESTADDRREQ : Int := 89

/-- Error taxonomy of the parser: `-EINVAL` (format error),
`-EDESTADDRREQ` (no destination) and `-ENOMEM` (allocation failure). -/
inductive AfsError where
  | formatError
  | noDestination
  | allocFailure
deriving DecidableEq, Repr

/-- One populated endpoint slot (`struct sockaddr_rxrpc` with either a
`sockaddr_in` or a `sockaddr_in6` transport).  IPv4 addresses are the
host-order 32-bit value, IPv6 addresses the 16 raw bytes. -/
inductive AfsEntry where
  | v4 (addr : Nat) (port : Nat)
  | v6 (addr : List Nat) (port : Nat)
deriving DecidableEq, Repr

/-- Read an entry as `(ntohl(sin_addr), ntohs(sin_port))`, as the IPv4
merge scan does.  The `v6` case would be a type-punned read of an IPv6
slot; it is unreachable under the list invariant and the result for it
is a junk value. -/
def get4 : AfsEntry → Nat × Nat
  | .v4 a p => (a, p)
  | .v6 _ p => (0, p)

/-- Read an entry as `(sin6_addr bytes, ntohs(sin6_port))`, as the IPv6
merge scan does.  The `v4` case would be a type-punned read of an IPv4
slot; it is unreachable under the list invariant. -/
def get6 : AfsEntry → List Nat × Nat
  | .v6 x p => (x, p)
  | .v4 _ p => (List.replicate 16 0, p)

/-- `memcmp` on byte sequences (the two buffers compared by the code are
always 16 bytes long). -/
def memcmpB : List Nat → List Nat → Ordering
  | [], [] => .eq
  | a :: as, b :: bs =>
    if a < b then .lt else if b < a then .gt else memcmpB as bs
  | _, _ => .eq

/-- Strict ordering on (IPv4 address, port) keys used by the IPv4
segment invariant. -/
def ltKey4 (x y : Nat × Nat) : Prop :=
  x.1 < y.1 ∨ (x.1 = y.1 ∧ x.2 < y.2)

/-- Strict ordering on (IPv6 address bytes, port) keys used by the IPv6
segment invariant. -/
def ltKey6 (x y : List Nat × Nat) : Prop :=
  memcmpB x.1 y.1 = .lt ∨ (memcmpB x.1 y.1 = .eq ∧ x.2 < y.2)

/-- Entry ordering for the IPv4 segment. -/
def lt4 (e1 e2 : AfsEntry) : Prop := ltKey4 (get4 e1) (get4 e2)

/-- Entry ordering for the IPv6 segment. -/
def lt6 (e1 e2 : AfsEntry) : Prop := ltKey6 (get6 e1) (get6 e2)

instance : DecidableRel lt4 := fun e1 e2 => by
  unfold lt4 ltKey4; exact inferInstance

instance : DecidableRel lt6 := fun e1 e2 => by
  unfold lt6 ltKey6; exact inferInstance

/-- `struct afs_addr_list`: capacity, the IPv4 count, the populated
entries (IPv4 entries first), and the advisory last-good index.
`nr_addrs` is the length of `addrs`. -/
structure AfsAddrList where
  max_addrs : Nat
  service : Nat
  nr_ipv4 : Nat
  addrs : List AfsEntry
  index : Nat
deriving DecidableEq, Repr

/-- `alist->nr_addrs`. -/
def AfsAddrList.nr_addrs (l : AfsAddrList) : Nat := l.addrs.length

/-- `afs_alloc_addrlist`: clamp the requested capacity to the ceiling
and start with an empty populated prefix.  (The zeroed template slots
beyond `nr_addrs` are not observable in this model; allocation failure
is not modelled.) -/
def afs_alloc_addrlist (nr service port : Nat) : AfsAddrList :=
  { max_addrs := min nr AFS_MAX_ADDRESSES
    service := service
    nr_ipv4 := 0
    addrs := []
    index := 0 }

/-- The IPv4 merge scan-and-insert over the first `n = nr_ipv4` entries:
`none` means an exact (address, port) duplicate was found (the C code
returns without changing the list), `some es` is the array after the
`memmove` shift and slot write.  Test order follows the C loop:
duplicate return, then the two break conditions, else continue. -/
def ins4 (a p : Nat) : Nat → List AfsEntry → Option (List AfsEntry)
  | 0, es => some (.v4 a p :: es)
  | _ + 1, [] => some [.v4 a p]
  | n + 1, e :: es =>
    let k := get4 e
    if a == k.1 && p == k.2 then none
    else if (a == k.1 && p.blt k.2) || a.blt k.1 then
      some (.v4 a p :: e :: es)
    else (ins4 a p n es).map (fun t => e :: t)

/-- `afs_merge_fs_addr4`: no-op when full, ordered dedup insert into the
IPv4 segment otherwise (`addr` is the host-order value `ntohl(xdr)`). -/
def afs_merge_fs_addr4 (l : AfsAddrList) (addr port : Nat) : AfsAddrList :=
  if l.nr_addrs ≥ l.max_addrs then l
  else
    match ins4 addr port l.nr_ipv4 l.addrs with
    | none => l
    | some es => { l with addrs := es, nr_ipv4 := l.nr_ipv4 + 1 }

/-- The IPv6 merge scan-and-insert over the entries from `nr_ipv4` on:
`none` means duplicate, `some es` the shifted segment with the new entry
written.  Test order follows the C loop: `memcmp` then the duplicate
return, the two break conditions, else continue. -/
def ins6 (x : List Nat) (p : Nat) : List AfsEntry → Option (List AfsEntry)
  | [] => some [.v6 x p]
  | e :: es =>
    let k := get6 e
    match memcmpB x k.1 with
    | .eq =>
      if p == k.2 then none
      else if p.blt k.2 then some (.v6 x p :: e :: es)
      else (ins6 x p es).map (fun t => e :: t)
    | .lt => some (.v6 x p :: e :: es)
    | .gt => (ins6 x p es).map (fun t => e :: t)

/-- `afs_merge_fs_addr6`: no-op when full, ordered dedup insert into the
IPv6 segment (which starts at `nr_ipv4`) otherwise. -/
def afs_merge_fs_addr6 (l : AfsAddrList) (x : List Nat) (port : Nat) :
    AfsAddrList :=
  if l.nr_addrs ≥ l.max_addrs then l
  else
    match ins6 x port (l.addrs.drop l.nr_ipv4) with
    | none => l
    | some es => { l with addrs := l.addrs.take l.nr_ipv4 ++ es }

/-- Character of `text` at offset `i` (the parser only reads in-bounds
offsets; the default is the NUL byte). -/
def chAt (text : List Char) (i : Nat) : Char := text.getD i (Char.ofNat 0)

/-- `memchr(text + start, c, len - start)` as an index into `text`. -/
def memchrFrom (text : List Char) (c : Char) (start : Nat) : Option Nat :=
  ((text.drop start).findIdx? (fun ch => ch == c)).map (· + start)

/-- Split a character list at every occurrence of `c` (empty pieces are
kept, as with repeated separators). -/
def splitOnChar (c : Char) : List Char → List (List Char)
  | [] => [[]]
  | x :: xs =>
    let r := splitOnChar c xs
    if x = c then [] :: r
    else
      match r with
      | g :: gs => (x :: g) :: gs
      | [] => [[x]]

/-- Decimal value of one dotted-quad octet: one or more digits, value at
most 255. -/
def decOctet (g : List Char) : Option Nat :=
  if !g.isEmpty && g.all Char.isDigit then
    let v := g.foldl (fun acc c => acc * 10 + (c.toNat - 48)) 0
    if v ≤ 255 then some v else none
  else none

/-- Modelled from the spec: `in4_pton` (a library helper outside these
sources) — dotted-decimal IPv4 parse of exactly the given slice ("ipv4"
in the spec grammar; the code also checks that the parse consumed the
whole slice, which is folded into this model).  Returns the host-order
32-bit value. -/
def in4_pton (s : List Char) : Option Nat :=
  match splitOnChar '.' s with
  | [a, b, c, d] =>
    match decOctet a, decOctet b, decOctet c, decOctet d with
    | some x, some y, some z, some w =>
      some (((x * 256 + y) * 256 + z) * 256 + w)
    | _, _, _, _ => none
  | _ => none

/-- Value of a hexadecimal digit. -/
def hexVal (c : Char) : Option Nat :=
  if '0' ≤ c ∧ c ≤ '9' then some (c.toNat - 48)
  else if 'a' ≤ c ∧ c ≤ 'f' then some (c.toNat - 87)
  else if 'A' ≤ c ∧ c ≤ 'F' then some (c.toNat - 55)
  else none

/-- One IPv6 group: one to four hexadecimal digits. -/
def hexGroup (g : List Char) : Option Nat :=
  if g.length = 0 ∨ g.length > 4 then none
  else (g.mapM hexVal).map (·.foldl (fun a d => a * 16 + d) 0)

/-- Offset of the first occurrence of "::" in a character list. -/
def ddIdx : List Char → Option Nat
  | x :: y :: rest =>
    if x = ':' ∧ y = ':' then some 0 else (ddIdx (y :: rest)).map (· + 1)
  | _ => none

/-- The big-endian bytes of a list of 16-bit groups. -/
def groupBytes (gs : List Nat) : List Nat :=
  gs.foldr (fun v acc => v / 256 :: v % 256 :: acc) []

/-- Modelled from the spec: `in6_pton` (a library helper outside these
sources) — IPv6 literal parse of exactly the given slice ("ipv6" in the
spec grammar): colon-separated 16-bit hexadecimal groups with at most
one "::" elision; eight groups without elision.  The embedded
dotted-quad suffix form is not part of the spec grammar and is not
modelled.  Returns the 16 address bytes. -/
def in6_pton (s : List Char) : Option (List Nat) :=
  match ddIdx s with
  | some i =>
    let left := s.take i
    let right := s.drop (i + 2)
    if (ddIdx right).isSome then none
    else do
      let lg ← if left.isEmpty then some [] else
        (splitOnChar ':' left).mapM hexGroup
      let rg ← if right.isEmpty then some [] else
        (splitOnChar ':' right).mapM hexGroup
      if lg.length + rg.length ≤ 7 then
        some (groupBytes
          (lg ++ List.replicate (8 - lg.length - rg.length) 0 ++ rg))
      else none
  | none => do
    let gs ← (splitOnChar ':' s).mapM hexGroup
    if gs.length = 8 then some (groupBytes gs) else none

/-- The delimiter rewrite at the top of `afs_parse_text_addrs`: a caller
delimiter of ':' becomes ',' when the text contains a ',' or contains no
'.'. -/
def afs_effective_delim (text : List Char) (delim : Char) : Char :=
  if delim == ':' && (text.contains ',' || !(text.contains '.')) then ','
  else delim

/-- The counting pass of `afs_parse_text_addrs` (the first `do { }
while (p < end)` loop), with fuel.  A delimiter character at a segment
start triggers the C `continue`, which re-tests the loop condition
without advancing `p` — reproduced verbatim here (the recursive call
with the same `p`). -/
def afs_count_loop (text : List Char) (delim : Char) :
    Nat → Nat → Nat → Option (Except AfsError Nat)
  | 0, _, _ => none
  | fuel + 1, p, nr =>
    if chAt text p = Char.ofNat 0 then some (.error .formatError)
    else if chAt text p = delim then
      if p < text.length then afs_count_loop text delim fuel p nr
      else some (.ok nr)
    else
      let nr := nr + 1
      if chAt text p = '[' then
        let p := p + 1
        if p = text.length then some (.error .formatError)
        else
          match memchrFrom text ']' p with
          | none => some (.error .formatError)
          | some j =>
            let p := j + 1
            if p ≥ text.length then some (.ok nr)
            else
              match memchrFrom text delim p with
              | none => some (.ok nr)
              | some k =>
                if k + 1 < text.length then
                  afs_count_loop text delim fuel (k + 1) nr
                else some (.ok nr)
      else
        match memchrFrom text delim p with
        | none => some (.ok nr)
        | some k =>
          if k + 1 < text.length then
            afs_count_loop text delim fuel (k + 1) nr
          else some (.ok nr)

/-- The "+1234" port-suffix digit loop: accumulate decimal digits,
failing once the value exceeds 65535; stops at the first non-digit or at
the end of the text.  Called with fuel `text.length - p`, which the loop
never exhausts. -/
def afs_port_digits (text : List Char) :
    Nat → Nat → Nat → Except AfsError (Nat × Nat)
  | 0, p, acc => .ok (acc, p)
  | fuel + 1, p, acc =>
    let acc := acc * 10 + (chAt text p).toNat - 48
    if acc > 65535 then .error .formatError
    else
      let p := p + 1
      if p < text.length ∧ (chAt text p).isDigit then
        afs_port_digits text fuel p acc
      else .ok (acc, p)

/-- End of the host portion of a non-bracketed segment starting at `p`:
the first '+' or delimiter at or after `p`, else the end of the text. -/
def findHostEnd (text : List Char) (delim : Char) (p : Nat) : Nat :=
  match ((text.drop p).findIdx? (fun ch => ch == '+' || ch == delim)) with
  | some j => j + p
  | none => text.length

/-- The extraction pass of `afs_parse_text_addrs` (the second `do { }
while (p < end)` loop), with fuel.  An unterminated '[' at this point
would make the C code hand a negative length to `in4_pton`; it is
modelled as a format error. -/
def afs_extract_loop (text : List Char) (delim : Char) (port : Nat) :
    Nat → Nat → AfsAddrList → Option (Except AfsError AfsAddrList)
  | 0, _, _ => none
  | fuel + 1, p, alist =>
    if chAt text p = delim then
      if p + 1 < text.length then afs_extract_loop text delim port fuel (p + 1) alist
      else some (.ok alist)
    else
      let hp := if chAt text p = '[' then p + 1 else p
      let qOpt := if chAt text p = '[' then memchrFrom text ']' (p + 1)
        else some (findHostEnd text delim p)
      match qOpt with
      | none => some (.error .formatError)
      | some q =>
        let host := (text.drop hp).take (q - hp)
        let parsed : Option (Sum Nat (List Nat)) :=
          match in4_pton host with
          | some a => some (.inl a)
          | none =>
            match in6_pton host with
            | some x => some (.inr x)
            | none => none
        match parsed with
        | none => some (.error .formatError)
        | some fam =>
          let p1 := if q < text.length ∧ chAt text q = ']' then q + 1 else q
          let res : Except AfsError (Nat × Nat) :=
            if p1 < text.length then
              if chAt text p1 = '+' then
                let p2 := p1 + 1
                if p2 ≥ text.length ∨ !(chAt text p2).isDigit then
                  .error .formatError
                else afs_port_digits text (text.length - p2) p2 0
              else if chAt text p1 = delim then .ok (port, p1 + 1)
              else .error .formatError
            else .ok (port, p1)
          match res with
          | .error e => some (.error e)
          | .ok (xport, p') =>
            let alist :=
              match fam with
              | .inl a => afs_merge_fs_addr4 alist a xport
              | .inr x => afs_merge_fs_addr6 alist x xport
            if p' < text.length then afs_extract_loop text delim port fuel p' alist
            else some (.ok alist)

/-- `afs_parse_text_addrs`: empty-text check, delimiter rewrite, the
counting pass, allocation, then the extraction pass.  `none` means a
pass did not finish within `fuel`. -/
def afs_parse_text_addrs (fuel : Nat) (text : List Char) (delim : Char)
    (service port : Nat) : Option (Except AfsError AfsAddrList) :=
  if text.length = 0 then some (.error .noDestination)
  else
    let delim := afs_effective_delim text delim
    match afs_count_loop text delim fuel 0 0 with
    | none => none
    | some (.error e) => some (.error e)
    | some (.ok nr) =>
      let alist := afs_alloc_addrlist nr service port
      afs_extract_loop text delim port fuel 0 alist

/-- `struct afs_addr_cursor`: the bound list (held by value here; the
list is immutable during iteration), the selected endpoint as an index
into `addrs` (`ac->addr` points at `addrs[index]`), the sticky start,
the current index, the accumulated error and the two flags. -/
structure AfsAddrCursor where
  alist : Option AfsAddrList
  addr : Option Nat
  start : Nat
  index : Nat
  error : Int
  begun : Bool
  responded : Bool
deriving DecidableEq, Repr

/-- `afs_iterate_addresses`: select the next address to try.  On the
first call the cursor's own index is selected; afterwards the index
advances with wrap-around, and coming back to `start` exhausts the ring
with `-EDESTADDRREQ`.  Every successful call clears `responded` and
points `addr` at the selected slot. -/
def afs_iterate_addresses (ac : AfsAddrCursor) : Bool × AfsAddrCursor :=
  match ac.alist with
  | none => (false, ac)
  | some alist =>
    if ac.begun then
      let i1 := ac.index + 1
      let i2 := if i1 = alist.nr_addrs then 0 else i1
      if i2 = ac.start then
        (false, { ac with index := i2, error := -EDESTADDRREQ })
      else
        (true, { ac with index := i2, responded := false, addr := some i2 })
    else
      (true, { ac with begun := true, responded := false,
                       addr := some ac.index })

/-- The cursor state after one call to `afs_iterate_addresses`. -/
def iterStep (ac : AfsAddrCursor) : AfsAddrCursor :=
  (afs_iterate_addresses ac).2

/-- Modelled from the spec: `mark_responded` — the callers of this core
set `ac->responded` after receiving any reply from the endpoint being
tried (the setter itself lives outside these sources). -/
def afs_mark_responded (ac : AfsAddrCursor) : AfsAddrCursor :=
  { ac with responded := true }

/-- `afs_end_cursor`: publish the current index as the list's last-good
hint when a response was seen at an index other than the start, release
the list reference, and return the accumulated error.  The result is
(returned error, the released list as left behind, the cleared
cursor). -/
def afs_end_cursor (ac : AfsAddrCursor) :
    Int × Option AfsAddrList × AfsAddrCursor :=
  match ac.alist with
  | some alist =>
    let alist' :=
      if ac.responded ∧ ac.index ≠ ac.start then { alist with index := ac.index }
      else alist
    (ac.error, some alist',
      { ac with addr := none, alist := none, begun := false })
  | none =>
    (ac.error, none, { ac with addr := none, alist := none, begun := false })

/-- The entry is an IPv4 slot. -/
def AfsEntry.isV4 : AfsEntry → Prop
  | .v4 _ _ => True
  | .v6 _ _ => False

/-- The entry is an IPv6 slot with a full 16-byte address (a
`sin6_addr` is always 16 bytes). -/
def AfsEntry.wf6 : AfsEntry → Prop
  | .v4 _ _ => False
  | .v6 x _ => x.length = 16

instance (e : AfsEntry) : Decidable e.isV4 := by
  cases e <;> simp [AfsEntry.isV4] <;> exact inferInstance

instance (e : AfsEntry) : Decidable e.wf6 := by
  cases e <;> simp [AfsEntry.wf6] <;> exact inferInstance

/-- The address-list invariant: the counts are consistent, entries
`[0, nr_ipv4)` are IPv4 and strictly ascending by (host-order address,
port), entries `[nr_ipv4, nr_addrs)` are IPv6 (16-byte addresses) and
strictly ascending by (byte-wise address comparison, port), and no two
entries of a segment share their (address, port) key. -/
def AddrListInv (l : AfsAddrList) : Prop :=
  l.nr_ipv4 ≤ l.addrs.length ∧
  l.addrs.length ≤ l.max_addrs ∧
  (∀ e ∈ l.addrs.take l.nr_ipv4, e.isV4) ∧
  (∀ e ∈ l.addrs.drop l.nr_ipv4, e.wf6) ∧
  (l.addrs.take l.nr_ipv4).Pairwise lt4 ∧
  (l.addrs.drop l.nr_ipv4).Pairwise lt6 ∧
  (l.addrs.take l.nr_ipv4).Pairwise (fun e1 e2 => get4 e1 ≠ get4 e2) ∧
  (l.addrs.drop l.nr_ipv4).Pairwise (fun e1 e2 => get6 e1 ≠ get6 e2)

instance (l : AfsAddrList) : Decidable (AddrListInv l) := by
  unfold AddrListInv; exact inferInstance

instance {α β : Type} [DecidableEq α] [DecidableEq β] :
    DecidableEq (Except α β) := fun x y =>
  match x, y with
  | .error a, .error b => decidable_of_iff (a = b) (by simp)
  | .ok a, .ok b => decidable_of_iff (a = b) (by simp)
  | .error _, .ok _ => isFalse (by simp)
  | .ok _, .error _ => isFalse (by simp)

/-- The round-trip example text from the design documentation. -/
def c5text : List Char := "10.0.0.2,10.0.0.1,[::1]+7000".toList

/-- A segment that parses as neither IPv4 nor IPv6. -/
def c7bad : List Char := "not-an-address".toList

/-- A '+' port suffix with no digit after it. -/
def c7port1 : List Char := "1.2.3.4+".toList

/-- A '+' port suffix whose decimal value exceeds 65535. -/
def c7port2 : List Char := "1.2.3.4+65536".toList

/-- A valid first segment followed by a malformed one. -/
def c7disc : List Char := "9.9.9.9,*".toList

lemma memcmpB_self (x : List Nat) : memcmpB x x = .eq := by
  induction x with
  | nil => rfl
  | cons a as ih => simp [memcmpB, ih]

lemma ins4_idem (a p : Nat) :
    ∀ (n : Nat) (es es' : List AfsEntry),
      ins4 a p n es = some es' → ins4 a p (n + 1) es' = none := by
  intro n
  induction n with
  | zero =>
    intro es es' h
    simp [ins4] at h
    subst h
    simp [ins4, get4]
  | succ n ih =>
    intro es es' h
    cases es with
    | nil =>
      simp [ins4] at h
      subst h
      simp [ins4, get4]
    | cons e es =>
      rw [ins4] at h
      split_ifs at h with h1 h2
      · simp at h
        subst h
        simp [ins4, get4]
      · simp only [Option.map_eq_some'] at h
        obtain ⟨t, ht, rfl⟩ := h
        rw [ins4]
        split_ifs
        simp [ih es t ht]

lemma ins6_idem (x : List Nat) (q : Nat) :
    ∀ (es es' : List AfsEntry),
      ins6 x q es = some es' → ins6 x q es' = none := by
  intro es
  induction es with
  | nil =>
    intro es' h
    simp [ins6] at h
    subst h
    simp [ins6, get6, memcmpB_self]
  | cons e es ih =>
    intro es' h
    rw [ins6] at h
    rcases hc : memcmpB x (get6 e).1 with _ | _ | _ <;> rw [hc] at h
    · -- lt : inserted in front
      simp at h
      subst h
      simp [ins6, get6, memcmpB_self]
    · -- eq
      split_ifs at h with h1 h2
      · simp at h
        subst h
        simp [ins6, get6, memcmpB_self]
      · simp only [Option.map_eq_some'] at h
        obtain ⟨t, ht, rfl⟩ := h
        rw [ins6, hc]
        split_ifs
        simp [ih t ht]
    · -- gt
      simp only [Option.map_eq_some'] at h
      obtain ⟨t, ht, rfl⟩ := h
      rw [ins6, hc]
      simp [ih t ht]

/-- C8: merge is idempotent — merging the same (address, port) twice
with `afs_merge_fs_addr4` (or `afs_merge_fs_addr6`) leaves the list
unchanged by the second call; in particular `nr_addrs` is unchanged.
(The hypothesis is the basic count consistency `nr_ipv4 ≤ nr_addrs`
every address list satisfies.) -/
theorem afs_merge_idempotent (l : AfsAddrList) (a p : Nat) (x : List Nat)
    (q : Nat) (hwf : l.nr_ipv4 ≤ l.addrs.length) :
    afs_merge_fs_addr4 (afs_merge_fs_addr4 l a p) a p =
      afs_merge_fs_addr4 l a p ∧
    afs_merge_fs_addr6 (afs_merge_fs_addr6 l x q) x q =
      afs_merge_fs_addr6 l x q := by
  constructor
  · by_cases hfull : l.nr_addrs ≥ l.max_addrs
    · simp [afs_merge_fs_addr4, hfull]
    · rcases hins : ins4 a p l.nr_ipv4 l.addrs with _ | es
      · simp [afs_merge_fs_addr4, hfull, hins]
      · have h2 := ins4_idem a p l.nr_ipv4 l.addrs es hins
        by_cases hfull2 :
            ({ l with addrs := es, nr_ipv4 := l.nr_ipv4 + 1 } :
              AfsAddrList).nr_addrs ≥ l.max_addrs
        · simp [afs_merge_fs_addr4, hfull, hins, hfull2]
        · simp [afs_merge_fs_addr4, hfull, hins, hfull2, h2]
  · by_cases hfull : l.nr_addrs ≥ l.max_addrs
    · simp [afs_merge_fs_addr6, hfull]
    · rcases hins : ins6 x q (l.addrs.drop l.nr_ipv4) with _ | es
      · simp [afs_merge_fs_addr6, hfull, hins]
      · have h2 := ins6_idem x q (l.addrs.drop l.nr_ipv4) es hins
        have hdrop :
            ((l.addrs.take l.nr_ipv4 ++ es).drop l.nr_ipv4) = es := by
          have : (l.addrs.take l.nr_ipv4).length = l.nr_ipv4 := by
            simp [List.length_take, hwf]
          rw [List.drop_left' this]
        by_cases hfull2 :
            ({ l with addrs := l.addrs.take l.nr_ipv4 ++ es } :
              AfsAddrList).nr_addrs ≥ l.max_addrs
        · simp [afs_merge_fs_addr6, hfull, hins, hfull2]
        · simp [afs_merge_fs_addr6, hfull, hins, hfull2, hdrop, h2]


/-- C8 witness: both merges evaluated twice at one concrete list. -/
theorem afs_merge_idempotent_witness :
    ((⟨4, 0, 1, [AfsEntry.v4 5 5], 0⟩ : AfsAddrList).nr_ipv4 ≤
      (⟨4, 0, 1, [AfsEntry.v4 5 5], 0⟩ : AfsAddrList).addrs.length) ∧
    (afs_merge_fs_addr4
        (afs_merge_fs_addr4 ⟨4, 0, 1, [AfsEntry.v4 5 5], 0⟩ 3 7) 3 7 =
      afs_merge_fs_addr4 ⟨4, 0, 1, [AfsEntry.v4 5 5], 0⟩ 3 7 ∧
    afs_merge_fs_addr6
        (afs_merge_fs_addr6 ⟨4, 0, 1, [AfsEntry.v4 5 5], 0⟩
          (List.replicate 16 9) 7) (List.replicate 16 9) 7 =
      afs_merge_fs_addr6 ⟨4, 0, 1, [AfsEntry.v4 5 5], 0⟩
        (List.replicate 16 9) 7) :=
  ⟨by decide,
   afs_merge_idempotent ⟨4, 0, 1, [AfsEntry.v4 5 5], 0⟩ 3 7
     (List.replicate 16 9) 7 (by decide)⟩

/-- C9: merging into a full list (`nr_addrs = max_addrs`) is a complete
no-op: counts, every slot and their order are unchanged. -/
theorem afs_merge_full_noop (l : AfsAddrList) (a p : Nat) (x : List Nat)
    (q : Nat) (h : l.nr_addrs = l.max_addrs) :
    afs_merge_fs_addr4 l a p = l ∧ afs_merge_fs_addr6 l x q = l := by
  have hge : l.nr_addrs ≥ l.max_addrs := h.ge
  constructor
  · simp [afs_merge_fs_addr4, hge]
  · simp [afs_merge_fs_addr6, hge]

/-- C9 witness: merging into a concrete full list. -/
theorem afs_merge_full_noop_witness :
    ((⟨1, 0, 1, [AfsEntry.v4 1 2], 0⟩ : AfsAddrList).nr_addrs =
      (⟨1, 0, 1, [AfsEntry.v4 1 2], 0⟩ : AfsAddrList).max_addrs) ∧
    (afs_merge_fs_addr4 ⟨1, 0, 1, [AfsEntry.v4 1 2], 0⟩ 9 9 =
      ⟨1, 0, 1, [AfsEntry.v4 1 2], 0⟩ ∧
    afs_merge_fs_addr6 ⟨1, 0, 1, [AfsEntry.v4 1 2], 0⟩
        (List.replicate 16 0) 9 =
      ⟨1, 0, 1, [AfsEntry.v4 1 2], 0⟩) :=
  ⟨by decide,
   afs_merge_full_noop ⟨1, 0, 1, [AfsEntry.v4 1 2], 0⟩ 9 9
     (List.replicate 16 0) 9 (by decide)⟩

lemma afs_count_loop_stuck (fuel nr : Nat) :
    afs_count_loop [','] ',' fuel 0 nr = none := by
  induction fuel with
  | zero => rfl
  | succ f ih =>
    have h0 : ¬((',' : Char) = Char.ofNat 0) := by decide
    simpa [afs_count_loop, chAt, h0] using ih

/-- C1: the counting pass of `afs_parse_text_addrs` hits the C
`continue` statement without advancing `p` whenever a segment starts
with the delimiter character, so parsing the one-character text ","
never terminates, no matter how much fuel the loop is given.  This
refutes totality of the parse for texts with leading or consecutive
delimiter characters. -/
theorem afs_parse_count_pass_diverges (fuel service port : Nat) :
    afs_parse_text_addrs fuel [','] ',' service port = none := by
  have h := afs_count_loop_stuck fuel 0
  simp [afs_parse_text_addrs, afs_effective_delim, h]

/-- C3: `afs_end_cursor` on a cursor with a bound list returns the
accumulated error, and publishes the cursor's index as the list's
last-good hint exactly when a response was recorded and the index moved
off the start; otherwise the list is handed back unchanged. -/
theorem afs_end_cursor_spec (ac : AfsAddrCursor) (al : AfsAddrList)
    (h : ac.alist = some al) :
    (afs_end_cursor ac).1 = ac.error ∧
    (ac.responded = true ∧ ac.index ≠ ac.start →
      (afs_end_cursor ac).2.1 = some { al with index := ac.index }) ∧
    (¬(ac.responded = true ∧ ac.index ≠ ac.start) →
      (afs_end_cursor ac).2.1 = some al) := by
  unfold afs_end_cursor
  rw [h]
  refine ⟨rfl, ?_, ?_⟩ <;> intro hc
  · simp only [hc]
    simp [hc.1, hc.2]
  · simp [hc]

/-- C3 witness: ending a concrete responded cursor whose index moved. -/
theorem afs_end_cursor_spec_witness :
    ((⟨some ⟨2, 0, 1, [AfsEntry.v4 1 2, AfsEntry.v4 3 4], 0⟩,
        some 1, 0, 1, 0, true, true⟩ : AfsAddrCursor).alist =
      some ⟨2, 0, 1, [AfsEntry.v4 1 2, AfsEntry.v4 3 4], 0⟩) ∧
    ((afs_end_cursor ⟨some ⟨2, 0, 1, [AfsEntry.v4 1 2, AfsEntry.v4 3 4], 0⟩,
        some 1, 0, 1, 0, true, true⟩).1 = 0 ∧
      ((⟨some ⟨2, 0, 1, [AfsEntry.v4 1 2, AfsEntry.v4 3 4], 0⟩,
          some 1, 0, 1, 0, true, true⟩ : AfsAddrCursor).responded = true ∧
        (⟨some ⟨2, 0, 1, [AfsEntry.v4 1 2, AfsEntry.v4 3 4], 0⟩,
          some 1, 0, 1, 0, true, true⟩ : AfsAddrCursor).index ≠
        (⟨some ⟨2, 0, 1, [AfsEntry.v4 1 2, AfsEntry.v4 3 4], 0⟩,
          some 1, 0, 1, 0, true, true⟩ : AfsAddrCursor).start →
        (afs_end_cursor ⟨some ⟨2, 0, 1, [AfsEntry.v4 1 2, AfsEntry.v4 3 4], 0⟩,
          some 1, 0, 1, 0, true, true⟩).2.1 =
          some ⟨2, 0, 1, [AfsEntry.v4 1 2, AfsEntry.v4 3 4], 1⟩)) := by
  refine ⟨rfl, ?_⟩
  have h := afs_end_cursor_spec
    ⟨some ⟨2, 0, 1, [AfsEntry.v4 1 2, AfsEntry.v4 3 4], 0⟩,
      some 1, 0, 1, 0, true, true⟩
    ⟨2, 0, 1, [AfsEntry.v4 1 2, AfsEntry.v4 3 4], 0⟩ rfl
  exact ⟨h.1, h.2.1⟩

lemma iterate_true_spec (ac : AfsAddrCursor)
    (h : (afs_iterate_addresses ac).1 = true) :
    (afs_iterate_addresses ac).2.responded = false ∧
    (afs_iterate_addresses ac).2.addr =
      some (afs_iterate_addresses ac).2.index := by
  obtain ⟨alist, addr, start, index, error, begun, responded⟩ := ac
  cases alist with
  | none => simp [afs_iterate_addresses] at h
  | some al =>
    cases begun with
    | false => simp [afs_iterate_addresses]
    | true =>
      by_cases hw : (if index + 1 = al.nr_addrs then 0 else index + 1) = start
      · simp [afs_iterate_addresses, hw] at h
      · simp [afs_iterate_addresses, hw]

/-- C10: every call to `afs_iterate_addresses` that returns true clears
the `responded` flag and points the cursor at the selected slot; hence a
response recorded on one endpoint followed by a further successful
advance leaves the cursor unresponded, and `afs_end_cursor` then hands
the list back with its last-good hint untouched. -/
theorem afs_iterate_clears_responded (ac : AfsAddrCursor) :
    ((afs_iterate_addresses ac).1 = true →
      (afs_iterate_addresses ac).2.responded = false ∧
      (afs_iterate_addresses ac).2.addr =
        some (afs_iterate_addresses ac).2.index) ∧
    (∀ al : AfsAddrList,
      (afs_iterate_addresses (afs_mark_responded (iterStep ac))).1 = true →
      (afs_iterate_addresses (afs_mark_responded (iterStep ac))).2.alist =
        some al →
      (afs_end_cursor
          (iterStep (afs_mark_responded (iterStep ac)))).2.1 = some al) := by
  refine ⟨fun h => iterate_true_spec ac h, fun al h2 hal => ?_⟩
  have hr := (iterate_true_spec _ h2).1
  show (afs_end_cursor
      (afs_iterate_addresses (afs_mark_responded (iterStep ac))).2).2.1 =
    some al
  unfold afs_end_cursor
  rw [hal]
  simp [hr]

/-- C10 witness: a concrete two-entry list, first selection, a recorded
response, then a further advance and release. -/
theorem afs_iterate_clears_responded_witness :
    ((afs_iterate_addresses (afs_mark_responded (iterStep
        (⟨some ⟨2, 0, 2, [AfsEntry.v4 1 2, AfsEntry.v4 3 4], 0⟩,
          none, 0, 0, 0, false, false⟩ : AfsAddrCursor)))).1 = true) ∧
    ((afs_iterate_addresses (afs_mark_responded (iterStep
        (⟨some ⟨2, 0, 2, [AfsEntry.v4 1 2, AfsEntry.v4 3 4], 0⟩,
          none, 0, 0, 0, false, false⟩ : AfsAddrCursor)))).2.alist =
      some ⟨2, 0, 2, [AfsEntry.v4 1 2, AfsEntry.v4 3 4], 0⟩) ∧
    ((afs_end_cursor (iterStep (afs_mark_responded (iterStep
        (⟨some ⟨2, 0, 2, [AfsEntry.v4 1 2, AfsEntry.v4 3 4], 0⟩,
          none, 0, 0, 0, false, false⟩ : AfsAddrCursor))))).2.1 =
      some ⟨2, 0, 2, [AfsEntry.v4 1 2, AfsEntry.v4 3 4], 0⟩) :=
  ⟨by decide, by decide,
   (afs_iterate_clears_responded
      ⟨some ⟨2, 0, 2, [AfsEntry.v4 1 2, AfsEntry.v4 3 4], 0⟩,
        none, 0, 0, 0, false, false⟩).2
     ⟨2, 0, 2, [AfsEntry.v4 1 2, AfsEntry.v4 3 4], 0⟩
     (by decide) (by decide)⟩

lemma mod_wrap (m N : Nat) (h : m < N) :
    (if m + 1 = N then 0 else m + 1) = (m + 1) % N := by
  split_ifs with h1
  · rw [h1, Nat.mod_self]
  · rw [Nat.mod_eq_of_lt (by omega)]

lemma mod_add_one (a N : Nat) : (a % N + 1) % N = (a + 1) % N :=
  (Nat.mod_modEq a N).add_right 1

lemma ring_ne (s k N : Nat) (h1 : 1 ≤ k) (h2 : k < N) (hs : s < N) :
    (s + k) % N ≠ s := by
  intro h
  have hmod : s ≡ s + k [MOD N] := by
    unfold Nat.ModEq
    rw [Nat.mod_eq_of_lt hs]
    exact h.symm
  have hdvd : N ∣ s + k - s := (Nat.modEq_iff_dvd' (Nat.le_add_right s k)).mp hmod
  rw [Nat.add_sub_cancel_left] at hdvd
  exact absurd (Nat.le_of_dvd (by omega) hdvd) (by omega)

lemma iterate_active (al : AfsAddrList) (s m : Nat) (e : Int)
    (ad : Option Nat) (r : Bool) (hm : m < al.addrs.length) :
    afs_iterate_addresses ⟨some al, ad, s, m, e, true, r⟩ =
      if (m + 1) % al.addrs.length = s then
        (false, ⟨some al, ad, s, (m + 1) % al.addrs.length,
          -EDESTADDRREQ, true, r⟩)
      else
        (true, ⟨some al, some ((m + 1) % al.addrs.length), s,
          (m + 1) % al.addrs.length, e, true, false⟩) := by
  have hw : (if m + 1 = al.addrs.length then 0 else m + 1) =
      (m + 1) % al.addrs.length := mod_wrap m al.addrs.length hm
  simp only [afs_iterate_addresses, AfsAddrList.nr_addrs]
  rw [hw]
  simp

lemma iterate_fresh (ac : AfsAddrCursor) (al : AfsAddrList)
    (hal : ac.alist = some al) (hbeg : ac.begun = false) :
    afs_iterate_addresses ac =
      (true, { ac with begun := true, responded := false, addr := some ac.index }) := by
  obtain ⟨alist, addr, start, index, error, begun, responded⟩ := ac
  dsimp only at hal hbeg
  simp [afs_iterate_addresses, hal, hbeg]

lemma iter_state_lemma (al : AfsAddrList) (s : Nat) (ac : AfsAddrCursor)
    (hal : ac.alist = some al) (hstart : ac.start = s) (hidx : ac.index = s)
    (hbeg : ac.begun = false) (hs : s < al.addrs.length) :
    ∀ k, 1 ≤ k → k ≤ al.addrs.length →
      iterStep^[k] ac =
        ⟨some al, some ((s + (k - 1)) % al.addrs.length), s,
          (s + (k - 1)) % al.addrs.length, ac.error, true, false⟩ := by
  have hN : 0 < al.addrs.length := lt_of_le_of_lt (Nat.zero_le s) hs
  obtain ⟨alist, addr, start, index, error, begun, responded⟩ := ac
  dsimp only at hal hstart hidx hbeg ⊢
  simp only [hal, hstart, hidx, hbeg]
  intro k
  induction k with
  | zero => intro h1 _; exact absurd h1 (by omega)
  | succ k ih =>
    intro _ hk
    rcases Nat.eq_zero_or_pos k with hk0 | hkpos
    · subst hk0
      rw [Function.iterate_one]
      have hsmod : (s + (1 - 1)) % al.addrs.length = s := by
        simpa using Nat.mod_eq_of_lt hs
      rw [hsmod]
      simp [iterStep, afs_iterate_addresses]
    · have hkN : k < al.addrs.length := by omega
      rw [Function.iterate_succ_apply', ih hkpos (by omega)]
      set N := al.addrs.length with hNdef
      set m := (s + (k - 1)) % N with hm
      have hmN : m < N := Nat.mod_lt _ hN
      have hm1 : (m + 1) % N = (s + k) % N := by
        rw [hm, mod_add_one]
        congr 1
        omega
      have hne : (s + k) % N ≠ s := ring_ne s k N hkpos hkN hs
      show (afs_iterate_addresses ⟨some al, some m, s, m, error, true, false⟩).2 = _
      rw [iterate_active al s m error (some m) false hmN, hm1, if_neg hne]
      have hidx2 : (s + (k + 1 - 1)) % N = (s + k) % N := by
        simp
      rw [hidx2]

/-- C2: for a list with `N` populated entries and a fresh cursor bound to
it at start index `s < N`, the first `N` calls to
`afs_iterate_addresses` return true and select the indices
`s, s+1, ..., (s+N-1) mod N` — each index in `0..N-1` exactly once — and
the `(N+1)`-th call returns false with the cursor error set to
`-EDESTADDRREQ`. -/
theorem afs_iterate_addresses_ring (al : AfsAddrList) (s : Nat)
    (ac : AfsAddrCursor) (hal : ac.alist = some al) (hstart : ac.start = s)
    (hidx : ac.index = s) (hbeg : ac.begun = false)
    (hN1 : 1 ≤ al.nr_addrs) (hNmax : al.nr_addrs ≤ al.max_addrs)
    (hs : s < al.nr_addrs) :
    (∀ k, k < al.nr_addrs →
      (afs_iterate_addresses (iterStep^[k] ac)).1 = true ∧
      (afs_iterate_addresses (iterStep^[k] ac)).2.index =
        (s + k) % al.nr_addrs ∧
      (afs_iterate_addresses (iterStep^[k] ac)).2.addr =
        some ((s + k) % al.nr_addrs)) ∧
    (∀ k1 k2, k1 < al.nr_addrs → k2 < al.nr_addrs →
      (s + k1) % al.nr_addrs = (s + k2) % al.nr_addrs → k1 = k2) ∧
    (∀ i, i < al.nr_addrs →
      ∃ k, k < al.nr_addrs ∧ (s + k) % al.nr_addrs = i) ∧
    (afs_iterate_addresses (iterStep^[al.nr_addrs] ac)).1 = false ∧
    (afs_iterate_addresses (iterStep^[al.nr_addrs] ac)).2.error =
      -EDESTADDRREQ := by
  simp only [AfsAddrList.nr_addrs] at *
  have hN : 0 < al.addrs.length := hN1
  refine ⟨?_, ?_, ?_, ?_⟩
  · intro k hk
    rcases Nat.eq_zero_or_pos k with hk0 | hkpos
    · subst hk0
      rw [Function.iterate_zero_apply]
      rw [iterate_fresh ac al hal hbeg]
      have hsmod : (s + 0) % al.addrs.length = s := by
        simpa using Nat.mod_eq_of_lt hs
      rw [hsmod]
      exact ⟨rfl, hidx, by rw [hidx]⟩
    · rw [iter_state_lemma al s ac hal hstart hidx hbeg hs k hkpos hk.le]
      set N := al.addrs.length with hNdef
      set m := (s + (k - 1)) % N with hm
      have hmN : m < N := Nat.mod_lt _ hN
      have hm1 : (m + 1) % N = (s + k) % N := by
        rw [hm, mod_add_one]
        congr 1
        omega
      have hne : (s + k) % N ≠ s := ring_ne s k N hkpos hk hs
      rw [iterate_active al s m ac.error (some m) false hmN, hm1, if_neg hne]
      exact ⟨rfl, rfl, rfl⟩
  · intro k1 k2 hk1 hk2 h
    have hmod : s + k1 ≡ s + k2 [MOD al.addrs.length] := h
    have hcan : k1 ≡ k2 [MOD al.addrs.length] :=
      Nat.ModEq.add_left_cancel' s hmod
    have h2 : k1 % al.addrs.length = k2 % al.addrs.length := hcan
    rw [Nat.mod_eq_of_lt hk1, Nat.mod_eq_of_lt hk2] at h2
    exact h2
  · intro i hi
    refine ⟨(i + al.addrs.length - s) % al.addrs.length, Nat.mod_lt _ hN, ?_⟩
    have h1 : (s + (i + al.addrs.length - s) % al.addrs.length) %
        al.addrs.length = (s + (i + al.addrs.length - s)) % al.addrs.length :=
      ((Nat.mod_modEq (i + al.addrs.length - s) al.addrs.length).add_left s)
    rw [h1, show s + (i + al.addrs.length - s) = i + al.addrs.length by omega,
      Nat.add_mod_right, Nat.mod_eq_of_lt hi]
  · rw [iter_state_lemma al s ac hal hstart hidx hbeg hs al.addrs.length hN1
      le_rfl]
    set N := al.addrs.length with hNdef
    set m := (s + (N - 1)) % N with hm
    have hmN : m < N := Nat.mod_lt _ hN
    have hm1 : (m + 1) % N = s := by
      rw [hm, mod_add_one, show s + (N - 1) + 1 = s + N by omega,
        Nat.add_mod_right, Nat.mod_eq_of_lt hs]
    rw [iterate_active al s m ac.error (some m) false hmN, hm1, if_pos rfl]
    exact ⟨rfl, rfl⟩

/-- C2 witness: a fresh cursor on a concrete two-entry list starting at
index 0 — the first call selects an entry and the third call exhausts
the ring with `-EDESTADDRREQ`. -/
theorem afs_iterate_addresses_ring_witness :
    ((⟨some ⟨2, 0, 2, [AfsEntry.v4 1 2, AfsEntry.v4 3 4], 0⟩,
        none, 0, 0, 0, false, false⟩ : AfsAddrCursor).begun = false) ∧
    (0 : Nat) <
      (⟨2, 0, 2, [AfsEntry.v4 1 2, AfsEntry.v4 3 4], 0⟩ :
        AfsAddrList).nr_addrs ∧
    ((afs_iterate_addresses (iterStep^[0]
        (⟨some ⟨2, 0, 2, [AfsEntry.v4 1 2, AfsEntry.v4 3 4], 0⟩,
          none, 0, 0, 0, false, false⟩ : AfsAddrCursor))).1 = true) ∧
    ((afs_iterate_addresses (iterStep^[(⟨2, 0, 2,
        [AfsEntry.v4 1 2, AfsEntry.v4 3 4], 0⟩ : AfsAddrList).nr_addrs]
        (⟨some ⟨2, 0, 2, [AfsEntry.v4 1 2, AfsEntry.v4 3 4], 0⟩,
          none, 0, 0, 0, false, false⟩ : AfsAddrCursor))).1 = false) ∧
    ((afs_iterate_addresses (iterStep^[(⟨2, 0, 2,
        [AfsEntry.v4 1 2, AfsEntry.v4 3 4], 0⟩ : AfsAddrList).nr_addrs]
        (⟨some ⟨2, 0, 2, [AfsEntry.v4 1 2, AfsEntry.v4 3 4], 0⟩,
          none, 0, 0, 0, false, false⟩ : AfsAddrCursor))).2.error =
      -EDESTADDRREQ) :=
  ⟨rfl, by decide,
   ((afs_iterate_addresses_ring
      ⟨2, 0, 2, [AfsEntry.v4 1 2, AfsEntry.v4 3 4], 0⟩ 0
      ⟨some ⟨2, 0, 2, [AfsEntry.v4 1 2, AfsEntry.v4 3 4], 0⟩,
        none, 0, 0, 0, false, false⟩
      rfl rfl rfl rfl (by decide) (by decide) (by decide)).1 0
      (by decide)).1,
   (afs_iterate_addresses_ring
      ⟨2, 0, 2, [AfsEntry.v4 1 2, AfsEntry.v4 3 4], 0⟩ 0
      ⟨some ⟨2, 0, 2, [AfsEntry.v4 1 2, AfsEntry.v4 3 4], 0⟩,
        none, 0, 0, 0, false, false⟩
      rfl rfl rfl rfl (by decide) (by decide) (by decide)).2.2.2.1,
   (afs_iterate_addresses_ring
      ⟨2, 0, 2, [AfsEntry.v4 1 2, AfsEntry.v4 3 4], 0⟩ 0
      ⟨some ⟨2, 0, 2, [AfsEntry.v4 1 2, AfsEntry.v4 3 4], 0⟩,
        none, 0, 0, 0, false, false⟩
      rfl rfl rfl rfl (by decide) (by decide) (by decide)).2.2.2.2⟩

lemma c5_extract_step1 (P fuel : Nat) (al : AfsAddrList) :
    afs_extract_loop c5text ',' P (fuel + 1) 0 al =
      afs_extract_loop c5text ',' P fuel 9
        (afs_merge_fs_addr4 al 167772162 P) := by
  have h1 : ¬(chAt c5text 0 = ',') := by decide
  have h2 : ¬(chAt c5text 0 = '[') := by decide
  have h3 : findHostEnd c5text ',' 0 = 8 := by decide
  have h4 : in4_pton (c5text.take 8) = some 167772162 := by decide
  have h5 : ¬(8 < c5text.length ∧ chAt c5text 8 = ']') := by decide
  have h6 : 8 < c5text.length := by decide
  have h7 : ¬(chAt c5text 8 = '+') := by decide
  have h8 : chAt c5text 8 = ',' := by decide
  have h9 : 9 < c5text.length := by decide
  rw [afs_extract_loop]
  simp [h1, h2, h3, h4, h5, h6, h7, h8, h9]

lemma c5_extract_step2 (P fuel : Nat) (al : AfsAddrList) :
    afs_extract_loop c5text ',' P (fuel + 1) 9 al =
      afs_extract_loop c5text ',' P fuel 18
        (afs_merge_fs_addr4 al 167772161 P) := by
  have h1 : ¬(chAt c5text 9 = ',') := by decide
  have h2 : ¬(chAt c5text 9 = '[') := by decide
  have h3 : findHostEnd c5text ',' 9 = 17 := by decide
  have h4 : in4_pton ((c5text.drop 9).take 8) = some 167772161 := by decide
  have h5 : ¬(17 < c5text.length ∧ chAt c5text 17 = ']') := by decide
  have h6 : 17 < c5text.length := by decide
  have h7 : ¬(chAt c5text 17 = '+') := by decide
  have h8 : chAt c5text 17 = ',' := by decide
  have h9 : 18 < c5text.length := by decide
  rw [afs_extract_loop]
  simp [h1, h2, h3, h4, h5, h6, h7, h8, h9]

lemma c5_extract_step3 (P fuel : Nat) (al : AfsAddrList) :
    afs_extract_loop c5text ',' P (fuel + 1) 18 al =
      some (.ok (afs_merge_fs_addr6 al
        [0, 0, 0, 0, 0, 0, 0, 0, 0, 0, 0, 0, 0, 0, 0, 1] 7000)) := by
  have h1 : ¬(chAt c5text 18 = ',') := by decide
  have h2 : chAt c5text 18 = '[' := by decide
  have h3 : memchrFrom c5text ']' 19 = some 22 := by decide
  have h4 : in4_pton ((c5text.drop 19).take 3) = none := by decide
  have h5 : in6_pton ((c5text.drop 19).take 3) =
      some [0, 0, 0, 0, 0, 0, 0, 0, 0, 0, 0, 0, 0, 0, 0, 1] := by decide
  have h6 : 22 < c5text.length := by decide
  have h7 : chAt c5text 22 = ']' := by decide
  have h8 : 23 < c5text.length := by decide
  have h9 : chAt c5text 23 = '+' := by decide
  have h10 : ¬(c5text.length ≤ 24 ∨ (chAt c5text 24).isDigit = false) := by
    decide
  have h11 : afs_port_digits c5text (c5text.length - 24) 24 0 =
      Except.ok (7000, 28) := by decide
  have h12 : ¬(28 < c5text.length) := by decide
  rw [afs_extract_loop]
  simp [h1, h2, h3, h4, h5, h6, h7, h8, h9, h10, h11, h12]

lemma merge4_eq_of_ins (l : AfsAddrList) (a p : Nat) (es : List AfsEntry)
    (hfull : ¬(l.nr_addrs ≥ l.max_addrs))
    (hins : ins4 a p l.nr_ipv4 l.addrs = some es) :
    afs_merge_fs_addr4 l a p =
      { l with addrs := es, nr_ipv4 := l.nr_ipv4 + 1 } := by
  rw [afs_merge_fs_addr4, if_neg hfull, hins]

lemma merge6_eq_of_ins (l : AfsAddrList) (x : List Nat) (p : Nat)
    (es : List AfsEntry) (hfull : ¬(l.nr_addrs ≥ l.max_addrs))
    (hins : ins6 x p (l.addrs.drop l.nr_ipv4) = some es) :
    afs_merge_fs_addr6 l x p = { l with addrs := l.addrs.take l.nr_ipv4 ++ es } := by
  rw [afs_merge_fs_addr6, if_neg hfull, hins]

/-- C5: parsing "10.0.0.2,10.0.0.1,[::1]+7000" with delimiter ',' and
any default port `P` yields a list with `nr_ipv4 = 2` and `nr_addrs =
3`: 10.0.0.1 at port `P`, then 10.0.0.2 at port `P` (sorted), then ::1
at port 7000. -/
theorem afs_parse_roundtrip_example (service P : Nat) :
    afs_parse_text_addrs 100 c5text ',' service P =
      some (.ok ⟨3, service, 2,
        [.v4 167772161 P, .v4 167772162 P,
         .v6 [0, 0, 0, 0, 0, 0, 0, 0, 0, 0, 0, 0, 0, 0, 0, 1] 7000], 0⟩) := by
  have h0 : ¬(c5text.length = 0) := by decide
  have hd : afs_effective_delim c5text ',' = ',' := by decide
  have hc : afs_count_loop c5text ',' 100 0 0 = some (.ok 3) := by decide
  have ha : afs_alloc_addrlist 3 service P = ⟨3, service, 0, [], 0⟩ := rfl
  have m1 : afs_merge_fs_addr4 ⟨3, service, 0, [], 0⟩ 167772162 P =
      ⟨3, service, 1, [AfsEntry.v4 167772162 P], 0⟩ := by
    have hins : ins4 167772162 P 0 ([] : List AfsEntry) =
        some [AfsEntry.v4 167772162 P] := by simp [ins4]
    exact (merge4_eq_of_ins _ _ _ _
      (by simp [AfsAddrList.nr_addrs]) hins).trans rfl
  have m2 : afs_merge_fs_addr4
      ⟨3, service, 1, [AfsEntry.v4 167772162 P], 0⟩ 167772161 P =
      ⟨3, service, 2,
        [AfsEntry.v4 167772161 P, AfsEntry.v4 167772162 P], 0⟩ := by
    have hk1 : (167772161 == 167772162 : Bool) = false := by decide
    have hk2 : Nat.blt 167772161 167772162 = true := by decide
    have hins : ins4 167772161 P 1 [AfsEntry.v4 167772162 P] =
        some [AfsEntry.v4 167772161 P, AfsEntry.v4 167772162 P] := by
      simp only [ins4, get4, hk1, hk2, Bool.false_and, Bool.false_or,
        reduceIte]
      rfl
    exact (merge4_eq_of_ins _ _ _ _
      (by simp [AfsAddrList.nr_addrs]) hins).trans rfl
  have m3 : afs_merge_fs_addr6
      ⟨3, service, 2, [AfsEntry.v4 167772161 P, AfsEntry.v4 167772162 P], 0⟩
      [0, 0, 0, 0, 0, 0, 0, 0, 0, 0, 0, 0, 0, 0, 0, 1] 7000 =
      ⟨3, service, 2,
        [AfsEntry.v4 167772161 P, AfsEntry.v4 167772162 P,
         AfsEntry.v6 [0, 0, 0, 0, 0, 0, 0, 0, 0, 0, 0, 0, 0, 0, 0, 1] 7000],
        0⟩ := by
    have hins : ins6 [0, 0, 0, 0, 0, 0, 0, 0, 0, 0, 0, 0, 0, 0, 0, 1] 7000
        ([] : List AfsEntry) =
        some [AfsEntry.v6 [0, 0, 0, 0, 0, 0, 0, 0, 0, 0, 0, 0, 0, 0, 0, 1]
          7000] := by simp [ins6]
    exact (merge6_eq_of_ins _ _ _ _
      (by simp [AfsAddrList.nr_addrs]) hins).trans rfl
  rw [afs_parse_text_addrs, if_neg h0]
  simp only [hd, hc]
  rw [ha]
  rw [show (100 : Nat) = 99 + 1 by norm_num, c5_extract_step1]
  rw [show (99 : Nat) = 98 + 1 by norm_num, c5_extract_step2]
  rw [show (98 : Nat) = 97 + 1 by norm_num, c5_extract_step3]
  rw [m1, m2, m3]

/-- C6: a caller delimiter of ':' is reinterpreted as ',' whenever the
text contains a ',' or no '.', and in particular "::1" with delimiter
':' parses as the single IPv6 address ::1 with the default port rather
than as colon-delimited fields. -/
theorem afs_delim_disambiguation :
    (∀ text : List Char,
      text.contains ',' = true ∨ text.contains '.' = false →
      afs_effective_delim text ':' = ',') ∧
    (∀ service P : Nat,
      afs_parse_text_addrs 100 (String.toList "::1") ':' service P =
        some (.ok ⟨1, service, 0,
          [.v6 [0, 0, 0, 0, 0, 0, 0, 0, 0, 0, 0, 0, 0, 0, 0, 1] P], 0⟩)) := by
  constructor
  · intro text h
    simp only [afs_effective_delim]
    rcases h with h | h
    · rw [h]
      rfl
    · rw [h]
      simp only [Bool.not_false, Bool.or_true, Bool.and_true]
      rfl
  · intro service P
    rfl

/-- C6 witness: a dot-free text switches the delimiter, and the "::1"
parse is evaluated at a concrete service and port. -/
theorem afs_delim_disambiguation_witness :
    ((String.toList "abc").contains ',' = true ∨
      (String.toList "abc").contains '.' = false) ∧
    afs_effective_delim (String.toList "abc") ':' = ',' ∧
    afs_parse_text_addrs 100 (String.toList "::1") ':' 3 70 =
      some (.ok ⟨1, 3, 0,
        [.v6 [0, 0, 0, 0, 0, 0, 0, 0, 0, 0, 0, 0, 0, 0, 0, 1] 70], 0⟩) :=
  ⟨Or.inr (by decide),
   afs_delim_disambiguation.1 (String.toList "abc") (Or.inr (by decide)),
   afs_delim_disambiguation.2 3 70⟩

lemma memcmpB_eq_symm (a : List Nat) :
    ∀ b, memcmpB a b = .eq → memcmpB b a = .eq := by
  induction a with
  | nil => intro b _; cases b <;> rfl
  | cons x as ih =>
    intro b h
    cases b with
    | nil => rfl
    | cons y bs =>
      rw [memcmpB] at h ⊢
      by_cases h1 : x < y
      · rw [if_pos h1] at h; exact absurd h (by decide)
      · rw [if_neg h1] at h
        by_cases h2 : y < x
        · rw [if_pos h2] at h; exact absurd h (by decide)
        · rw [if_neg h2] at h
          rw [if_neg h2, if_neg h1]
          exact ih bs h

lemma memcmpB_gt_symm (a : List Nat) :
    ∀ b, memcmpB a b = .gt → memcmpB b a = .lt := by
  induction a with
  | nil => intro b h; cases b <;> exact Ordering.noConfusion h
  | cons x as ih =>
    intro b h
    cases b with
    | nil => exact Ordering.noConfusion h
    | cons y bs =>
      rw [memcmpB] at h ⊢
      by_cases h1 : x < y
      · rw [if_pos h1] at h; exact absurd h (by decide)
      · rw [if_neg h1] at h
        by_cases h2 : y < x
        · rw [if_pos h2]
        · rw [if_neg h2] at h
          rw [if_neg h2, if_neg h1]
          exact ih bs h

lemma memcmpB_eq_of_len (a : List Nat) :
    ∀ b, a.length = b.length → memcmpB a b = .eq → a = b := by
  induction a with
  | nil =>
    intro b hl _
    cases b with
    | nil => rfl
    | cons y bs => simp at hl
  | cons x as ih =>
    intro b hl h
    cases b with
    | nil => simp at hl
    | cons y bs =>
      rw [memcmpB] at h
      by_cases h1 : x < y
      · rw [if_pos h1] at h; exact absurd h (by decide)
      · rw [if_neg h1] at h
        by_cases h2 : y < x
        · rw [if_pos h2] at h; exact absurd h (by decide)
        · rw [if_neg h2] at h
          have hxy : x = y := by omega
          have hb := ih bs (by simpa using hl) h
          rw [hxy, hb]

lemma memcmpB_lt_trans (a : List Nat) :
    ∀ b c, a.length = b.length → b.length = c.length →
      memcmpB a b = .lt → memcmpB b c = .lt → memcmpB a c = .lt := by
  induction a with
  | nil =>
    intro b c hab _ h _
    cases b with
    | nil => exact absurd h (by decide)
    | cons y bs => simp at hab
  | cons x as ih =>
    intro b c hab hbc h1 h2
    cases b with
    | nil => simp at hab
    | cons y bs =>
      cases c with
      | nil => simp at hbc
      | cons z cs =>
        rw [memcmpB] at h1 h2 ⊢
        by_cases hxy : x < y
        · rw [if_pos hxy] at h1
          by_cases hyz : y < z
          · rw [if_pos (by omega : x < z)]
          · rw [if_neg hyz] at h2
            by_cases hzy : z < y
            · rw [if_pos hzy] at h2; exact absurd h2 (by decide)
            · rw [if_pos (by omega : x < z)]
        · rw [if_neg hxy] at h1
          by_cases hyx : y < x
          · rw [if_pos hyx] at h1; exact absurd h1 (by decide)
          · rw [if_neg hyx] at h1
            by_cases hyz : y < z
            · rw [if_pos (by omega : x < z)]
            · rw [if_neg hyz] at h2
              by_cases hzy : z < y
              · rw [if_pos hzy] at h2; exact absurd h2 (by decide)
              · rw [if_neg hzy] at h2
                rw [if_neg (by omega : ¬x < z), if_neg (by omega : ¬z < x)]
                exact ih bs cs (by simpa using hab) (by simpa using hbc) h1 h2

lemma ltKey4_trans {x y z : Nat × Nat} :
    ltKey4 x y → ltKey4 y z → ltKey4 x z := by
  unfold ltKey4; omega

lemma ltKey4_ne {x y : Nat × Nat} : ltKey4 x y → x ≠ y := by
  rintro h rfl
  unfold ltKey4 at h
  omega

lemma ltKey6_trans {x y z : List Nat × Nat} (hx : x.1.length = 16)
    (hy : y.1.length = 16) (hz : z.1.length = 16) :
    ltKey6 x y → ltKey6 y z → ltKey6 x z := by
  unfold ltKey6
  rintro (h1 | ⟨h1, h1p⟩) (h2 | ⟨h2, h2p⟩)
  · exact Or.inl (memcmpB_lt_trans _ _ _ (by omega) (by omega) h1 h2)
  · have hyz := memcmpB_eq_of_len _ _ (by omega) h2
    rw [hyz] at h1
    exact Or.inl h1
  · have hxy := memcmpB_eq_of_len _ _ (by omega) h1
    rw [← hxy] at h2
    exact Or.inl h2
  · have hxy := memcmpB_eq_of_len _ _ (by omega) h1
    have hyz := memcmpB_eq_of_len _ _ (by omega) h2
    exact Or.inr ⟨by rw [hxy, hyz, memcmpB_self], by omega⟩

lemma ltKey6_ne {x y : List Nat × Nat} : ltKey6 x y → x ≠ y := by
  rintro h rfl
  rcases h with h | ⟨h, hp⟩
  · rw [memcmpB_self] at h
    exact Ordering.noConfusion h
  · omega

lemma wf6_get6_len {e : AfsEntry} (h : e.wf6) : (get6 e).1.length = 16 := by
  cases e with
  | v4 a p => exact h.elim
  | v6 y p => exact h

lemma ins4_split (a p : Nat) :
    ∀ (n : Nat) (es r : List AfsEntry), ins4 a p n es = some r →
      ∃ l1 l2, es = l1 ++ l2 ∧ r = l1 ++ AfsEntry.v4 a p :: l2 ∧
        l1.length ≤ n ∧
        (∀ e ∈ l1, ltKey4 (get4 e) (a, p)) ∧
        (l1.length < n → ∀ e t, l2 = e :: t → ltKey4 (a, p) (get4 e)) := by
  intro n
  induction n with
  | zero =>
    intro es r h
    rw [ins4] at h
    obtain rfl := Option.some.inj h
    exact ⟨[], es, rfl, rfl, le_refl _, by simp, by omega⟩
  | succ n ih =>
    intro es r h
    cases es with
    | nil =>
      rw [ins4] at h
      obtain rfl := Option.some.inj h
      refine ⟨[], [], rfl, rfl, by simp, by simp, ?_⟩
      intro _ e t het
      exact absurd het (by simp)
    | cons e es =>
      rw [ins4] at h
      by_cases h1 : (a == (get4 e).1 && p == (get4 e).2) = true
      · rw [if_pos h1] at h
        exact Option.noConfusion h
      · rw [if_neg h1] at h
        by_cases h2 : ((a == (get4 e).1 && Nat.blt p (get4 e).2) ||
            Nat.blt a (get4 e).1) = true
        · rw [if_pos h2] at h
          obtain rfl := Option.some.inj h
          refine ⟨[], e :: es, rfl, rfl, by simp, by simp, ?_⟩
          intro _ e' t het
          obtain ⟨rfl, rfl⟩ : e' = e ∧ t = es := by
            constructor <;> injection het <;> simp_all
          simp only [Bool.and_eq_true, Bool.or_eq_true, beq_iff_eq,
            Nat.blt_eq] at h2
          unfold ltKey4
          rcases h2 with ⟨hae, hpe⟩ | hlt
          · exact Or.inr ⟨hae, hpe⟩
          · exact Or.inl hlt
        · rw [if_neg h2] at h
          simp only [Option.map_eq_some'] at h
          obtain ⟨t, ht, rfl⟩ := h
          obtain ⟨l1, l2, hsplit, hres, hlen, hmem, hlast⟩ := ih es t ht
          refine ⟨e :: l1, l2, by rw [hsplit, List.cons_append], by rw [hres, List.cons_append], by simpa using hlen, ?_, ?_⟩
          · intro e' he'
            rcases List.mem_cons.1 he' with rfl | he'
            · simp only [Bool.and_eq_true, beq_iff_eq, not_and,
                Bool.or_eq_true, Nat.blt_eq, not_or] at h1 h2
              unfold ltKey4
              rcases Nat.lt_trichotomy (get4 e').1 a with hc | hc | hc
              · exact Or.inl hc
              · refine Or.inr ⟨hc, ?_⟩
                have hne := h1
                omega
              · exact absurd hc (by omega)
            · exact hmem e' he'
          · intro hl e' t' ht'
            exact hlast (by simpa using hl) e' t' ht'

lemma ins6_split (x : List Nat) (q : Nat) :
    ∀ (es r : List AfsEntry), ins6 x q es = some r →
      ∃ l1 l2, es = l1 ++ l2 ∧ r = l1 ++ AfsEntry.v6 x q :: l2 ∧
        (∀ e ∈ l1, ltKey6 (get6 e) (x, q)) ∧
        (∀ e t, l2 = e :: t → ltKey6 (x, q) (get6 e)) := by
  intro es
  induction es with
  | nil =>
    intro r h
    rw [ins6] at h
    obtain rfl := Option.some.inj h
    refine ⟨[], [], rfl, rfl, by simp, ?_⟩
    intro e t het
    exact absurd het (by simp)
  | cons e es ih =>
    intro r h
    rw [ins6] at h
    rcases hc : memcmpB x (get6 e).1 with _ | _ | _ <;> rw [hc] at h
    · -- lt: inserted in front
      obtain rfl := Option.some.inj h
      refine ⟨[], e :: es, rfl, rfl, by simp, ?_⟩
      intro e' t het
      obtain ⟨rfl, rfl⟩ : e' = e ∧ t = es := by
        constructor <;> injection het <;> simp_all
      exact Or.inl hc
    · -- eq
      by_cases h1 : (q == (get6 e).2) = true
      · rw [if_pos h1] at h
        exact Option.noConfusion h
      · rw [if_neg h1] at h
        by_cases h2 : Nat.blt q (get6 e).2 = true
        · rw [if_pos h2] at h
          obtain rfl := Option.some.inj h
          refine ⟨[], e :: es, rfl, rfl, by simp, ?_⟩
          intro e' t het
          obtain ⟨rfl, rfl⟩ : e' = e ∧ t = es := by
            constructor <;> injection het <;> simp_all
          simp only [Nat.blt_eq] at h2
          exact Or.inr ⟨hc, h2⟩
        · rw [if_neg h2] at h
          simp only [Option.map_eq_some'] at h
          obtain ⟨t, ht, rfl⟩ := h
          obtain ⟨l1, l2, hsplit, hres, hmem, hlast⟩ := ih t ht
          refine ⟨e :: l1, l2, by rw [hsplit, List.cons_append], by rw [hres, List.cons_append], ?_, hlast⟩
          intro e' he'
          rcases List.mem_cons.1 he' with rfl | he'
          · refine Or.inr ⟨memcmpB_eq_symm _ _ hc, ?_⟩
            simp only [beq_iff_eq] at h1
            simp only [Nat.blt_eq] at h2
            omega
          · exact hmem e' he'
    · -- gt
      simp only [Option.map_eq_some'] at h
      obtain ⟨t, ht, rfl⟩ := h
      obtain ⟨l1, l2, hsplit, hres, hmem, hlast⟩ := ih t ht
      refine ⟨e :: l1, l2, by rw [hsplit, List.cons_append], by rw [hres, List.cons_append], ?_, hlast⟩
      intro e' he'
      rcases List.mem_cons.1 he' with rfl | he'
      · exact Or.inl (memcmpB_gt_symm _ _ hc)
      · exact hmem e' he'

/-- C4: both merge routines preserve the address-list invariant: the
IPv4 prefix stays IPv4 and strictly ascending by (host-order address,
port), the IPv6 tail stays IPv6 with 16-byte addresses and strictly
ascending by (byte-wise address comparison, port), no two entries of a
segment share their (address, port) key, and
`nr_ipv4 ≤ nr_addrs ≤ max_addrs`. -/
theorem afs_merge_preserves_invariant (l : AfsAddrList) (a p : Nat)
    (x : List Nat) (q : Nat) (hinv : AddrListInv l)
    (hx : x.length = 16) :
    AddrListInv (afs_merge_fs_addr4 l a p) ∧
    AddrListInv (afs_merge_fs_addr6 l x q) := by
  obtain ⟨h1, h2, h3, h4, h5, h6, h7, h8⟩ := hinv
  constructor
  · by_cases hfull : l.nr_addrs ≥ l.max_addrs
    · rw [afs_merge_fs_addr4, if_pos hfull]
      exact ⟨h1, h2, h3, h4, h5, h6, h7, h8⟩
    · rw [afs_merge_fs_addr4, if_neg hfull]
      rcases hins : ins4 a p l.nr_ipv4 l.addrs with _ | es
      · exact ⟨h1, h2, h3, h4, h5, h6, h7, h8⟩
      · obtain ⟨l1, l2, hsplit, hres, hlen, hmem, hlast⟩ :=
          ins4_split a p l.nr_ipv4 l.addrs es hins
        subst hres
        show AddrListInv ⟨l.max_addrs, l.service, l.nr_ipv4 + 1,
          l1 ++ AfsEntry.v4 a p :: l2, l.index⟩
        have hAlen : l.addrs.length = l1.length + l2.length := by
          rw [hsplit]; simp
        have hTakeA : l.addrs.take l.nr_ipv4 =
            l1 ++ l2.take (l.nr_ipv4 - l1.length) := by
          rw [hsplit, List.take_append_eq_append_take,
            List.take_of_length_le hlen]
        have hDropA : l.addrs.drop l.nr_ipv4 =
            l2.drop (l.nr_ipv4 - l1.length) := by
          rw [hsplit, List.drop_append_eq_append_drop,
            List.drop_eq_nil_of_le hlen, List.nil_append]
        have hTake : (l1 ++ AfsEntry.v4 a p :: l2).take (l.nr_ipv4 + 1) =
            l1 ++ AfsEntry.v4 a p :: l2.take (l.nr_ipv4 - l1.length) := by
          rw [List.take_append_eq_append_take,
            List.take_of_length_le (by omega),
            show l.nr_ipv4 + 1 - l1.length = (l.nr_ipv4 - l1.length) + 1
              from by omega,
            List.take_succ_cons]
        have hDrop : (l1 ++ AfsEntry.v4 a p :: l2).drop (l.nr_ipv4 + 1) =
            l2.drop (l.nr_ipv4 - l1.length) := by
          rw [List.drop_append_eq_append_drop,
            List.drop_eq_nil_of_le (by omega),
            show l.nr_ipv4 + 1 - l1.length = (l.nr_ipv4 - l1.length) + 1
              from by omega,
            List.drop_succ_cons, List.nil_append]
        rw [hTakeA] at h3 h5 h7
        rw [hDropA] at h4 h6 h8
        rw [List.pairwise_append] at h5
        obtain ⟨hP1, hP2, hcross⟩ := h5
        have hnewsort : (l1 ++ AfsEntry.v4 a p ::
            l2.take (l.nr_ipv4 - l1.length)).Pairwise lt4 := by
          rw [List.pairwise_append]
          refine ⟨hP1, ?_, ?_⟩
          · rw [List.pairwise_cons]
            refine ⟨?_, hP2⟩
            intro y hy
            rcases hl2 : l2 with _ | ⟨e0, t0⟩
            · rw [hl2] at hy; simp at hy
            · have hm : 0 < l.nr_ipv4 - l1.length := by
                rcases Nat.eq_zero_or_pos (l.nr_ipv4 - l1.length) with h0 | h0
                · rw [h0] at hy; simp at hy
                · exact h0
              have hhead := hlast (by omega) e0 t0 hl2
              rw [hl2, show l.nr_ipv4 - l1.length =
                  (l.nr_ipv4 - l1.length - 1) + 1 from by omega,
                List.take_succ_cons] at hy
              rcases List.mem_cons.1 hy with rfl | hy
              · exact hhead
              · have hP2' := hP2
                rw [hl2, show l.nr_ipv4 - l1.length =
                    (l.nr_ipv4 - l1.length - 1) + 1 from by omega,
                  List.take_succ_cons, List.pairwise_cons] at hP2'
                exact ltKey4_trans hhead (hP2'.1 y hy)
          · intro e1 he1 y hy
            rcases List.mem_cons.1 hy with rfl | hy
            · exact hmem e1 he1
            · exact hcross e1 he1 y hy
        have hfull' : l.addrs.length < l.max_addrs := by
          unfold AfsAddrList.nr_addrs at hfull; omega
        unfold AddrListInv
        dsimp only
        rw [hTake, hDrop]
        refine ⟨?_, ?_, ?_, h4, hnewsort, h6,
          hnewsort.imp (fun hab => ltKey4_ne hab), h8⟩
        · simp only [List.length_append, List.length_cons]; omega
        · simp only [List.length_append, List.length_cons]; omega
        · intro e' he'
          rcases List.mem_append.1 he' with he' | he'
          · exact h3 e' (List.mem_append.2 (Or.inl he'))
          · rcases List.mem_cons.1 he' with rfl | he'
            · trivial
            · exact h3 e' (List.mem_append.2 (Or.inr he'))
  · by_cases hfull : l.nr_addrs ≥ l.max_addrs
    · rw [afs_merge_fs_addr6, if_pos hfull]
      exact ⟨h1, h2, h3, h4, h5, h6, h7, h8⟩
    · rw [afs_merge_fs_addr6, if_neg hfull]
      rcases hins : ins6 x q (l.addrs.drop l.nr_ipv4) with _ | es
      · exact ⟨h1, h2, h3, h4, h5, h6, h7, h8⟩
      · obtain ⟨l1, l2, hsplit, hres, hmem, hlast⟩ :=
          ins6_split x q (l.addrs.drop l.nr_ipv4) es hins
        subst hres
        show AddrListInv ⟨l.max_addrs, l.service, l.nr_ipv4,
          l.addrs.take l.nr_ipv4 ++ (l1 ++ AfsEntry.v6 x q :: l2), l.index⟩
        have hTn : (l.addrs.take l.nr_ipv4).length = l.nr_ipv4 := by
          rw [List.length_take]; omega
        have hTake' : (l.addrs.take l.nr_ipv4 ++
            (l1 ++ AfsEntry.v6 x q :: l2)).take l.nr_ipv4 =
            l.addrs.take l.nr_ipv4 := List.take_left' hTn
        have hDrop' : (l.addrs.take l.nr_ipv4 ++
            (l1 ++ AfsEntry.v6 x q :: l2)).drop l.nr_ipv4 =
            l1 ++ AfsEntry.v6 x q :: l2 := List.drop_left' hTn
        have hdl : (l.addrs.drop l.nr_ipv4).length = l1.length + l2.length := by
          rw [hsplit]; simp
        have hdl2 : (l.addrs.drop l.nr_ipv4).length =
            l.addrs.length - l.nr_ipv4 := by simp
        rw [hsplit] at h4 h6 h8
        rw [List.pairwise_append] at h6
        obtain ⟨hQ1, hQ2, hqcross⟩ := h6
        have hnew6 : (l1 ++ AfsEntry.v6 x q :: l2).Pairwise lt6 := by
          rw [List.pairwise_append]
          refine ⟨hQ1, ?_, ?_⟩
          · rw [List.pairwise_cons]
            refine ⟨?_, hQ2⟩
            intro y hy
            rcases hl2 : l2 with _ | ⟨e0, t0⟩
            · rw [hl2] at hy; simp at hy
            · have hhead := hlast e0 t0 hl2
              rw [hl2] at hy
              rcases List.mem_cons.1 hy with rfl | hy
              · exact hhead
              · have hQ2' := hQ2
                rw [hl2, List.pairwise_cons] at hQ2'
                refine ltKey6_trans hx ?_ ?_ hhead (hQ2'.1 y hy)
                · exact wf6_get6_len (h4 e0 (List.mem_append.2
                    (Or.inr (by rw [hl2]; exact List.mem_cons_self _ _))))
                · exact wf6_get6_len (h4 y (List.mem_append.2
                    (Or.inr (by rw [hl2]; exact List.mem_cons.2 (Or.inr hy)))))
          · intro e1 he1 y hy
            rcases List.mem_cons.1 hy with rfl | hy
            · exact hmem e1 he1
            · exact hqcross e1 he1 y hy
        have hfull' : l.addrs.length < l.max_addrs := by
          unfold AfsAddrList.nr_addrs at hfull; omega
        unfold AddrListInv
        dsimp only
        rw [hTake', hDrop']
        refine ⟨?_, ?_, h3, ?_, h5, hnew6, h7,
          hnew6.imp (fun hab => ltKey6_ne hab)⟩
        · simp only [List.length_append, List.length_cons, hTn]; omega
        · simp only [List.length_append, List.length_cons, hTn]; omega
        · intro e' he'
          rcases List.mem_append.1 he' with he' | he'
          · exact h4 e' (List.mem_append.2 (Or.inl he'))
          · rcases List.mem_cons.1 he' with rfl | he'
            · exact hx
            · exact h4 e' (List.mem_append.2 (Or.inr he'))

/-- C4 witness: the invariant and the 16-byte hypothesis checked at a
concrete list, and the conclusion for both merges. -/
theorem afs_merge_preserves_invariant_witness :
    (AddrListInv ⟨4, 0, 1,
      [AfsEntry.v4 5 70, AfsEntry.v6 (List.replicate 16 3) 70], 0⟩ ∧
      (List.replicate 16 1 : List Nat).length = 16) ∧
    (AddrListInv (afs_merge_fs_addr4 ⟨4, 0, 1,
        [AfsEntry.v4 5 70, AfsEntry.v6 (List.replicate 16 3) 70], 0⟩ 2 9) ∧
      AddrListInv (afs_merge_fs_addr6 ⟨4, 0, 1,
        [AfsEntry.v4 5 70, AfsEntry.v6 (List.replicate 16 3) 70], 0⟩
        (List.replicate 16 1) 9)) :=
  ⟨⟨by decide, by decide⟩,
   afs_merge_preserves_invariant
     ⟨4, 0, 1, [AfsEntry.v4 5 70, AfsEntry.v6 (List.replicate 16 3) 70], 0⟩
     2 9 (List.replicate 16 1) 9 (by decide) (by decide)⟩

lemma afs_port_digits_err (text : List Char) :
    ∀ (fuel p acc : Nat) (e : AfsError),
      afs_port_digits text fuel p acc = .error e → e = .formatError := by
  intro fuel
  induction fuel with
  | zero => intro p acc e h; exact Except.noConfusion h
  | succ f ih =>
    intro p acc e h
    rw [afs_port_digits] at h
    dsimp only at h
    split at h
    · exact (Except.error.inj h).symm ▸ rfl
    · split at h
      · exact ih _ _ _ h
      · exact Except.noConfusion h

lemma afs_count_loop_taxonomy (text : List Char) (delim : Char) :
    ∀ (fuel p nr : Nat) (r : Except AfsError Nat),
      afs_count_loop text delim fuel p nr = some r →
      (∃ k, r = Except.ok k) ∨ r = Except.error AfsError.formatError := by
  intro fuel
  induction fuel with
  | zero => intro p nr r h; exact Option.noConfusion h
  | succ f ih =>
    intro p nr r h
    rw [afs_count_loop] at h
    dsimp only at h
    repeat' split at h
    all_goals
      first
      | exact ih _ _ _ h
      | (obtain rfl := Option.some.inj h; exact Or.inl ⟨_, rfl⟩)
      | (obtain rfl := Option.some.inj h; exact Or.inr rfl)

lemma afs_extract_loop_taxonomy (text : List Char) (delim : Char)
    (port : Nat) :
    ∀ (fuel p : Nat) (alist : AfsAddrList) (r : Except AfsError AfsAddrList),
      afs_extract_loop text delim port fuel p alist = some r →
      (∃ al, r = Except.ok al) ∨ r = Except.error AfsError.formatError := by
  intro fuel
  induction fuel with
  | zero => intro p alist r h; exact Option.noConfusion h
  | succ f ih =>
    intro p alist r h
    rw [afs_extract_loop] at h
    dsimp only at h
    repeat' split at h
    all_goals
      first
      | exact ih _ _ _ h
      | (obtain rfl := Option.some.inj h; exact Or.inl ⟨_, rfl⟩)
      | (obtain rfl := Option.some.inj h; exact Or.inr rfl)
      | (obtain rfl := Option.some.inj h;
         rename_i e heq
         refine Or.inr ?_
         have he : e = AfsError.formatError := by
           repeat' split at heq
           all_goals
             first
             | exact Except.noConfusion heq
             | exact (Except.error.inj heq).symm
             | exact afs_port_digits_err text _ _ _ _ heq
         rw [he])

/-- C7: the parser's error taxonomy — empty text gives the
destination-address-required error; every terminating parse otherwise
yields either a completed list or the invalid-format error (never a
partial list, which only an `Except.ok` carries); and concretely, a
segment that is neither IPv4 nor IPv6, a '+' suffix without a digit,
and a '+' port value above 65535 each give the invalid-format error,
also when a valid address was already merged before the malformed
segment. -/
theorem afs_parse_error_taxonomy :
    (∀ fuel delim service port,
      afs_parse_text_addrs fuel [] delim service port =
        some (.error .noDestination)) ∧
    (∀ fuel text delim service port r,
      afs_parse_text_addrs fuel text delim service port = some r →
      (∃ al, r = Except.ok al) ∨ r = Except.error AfsError.formatError ∨
        r = Except.error AfsError.noDestination) ∧
    (∀ service P, afs_parse_text_addrs 100 c7bad ',' service P =
      some (.error .formatError)) ∧
    (∀ service P, afs_parse_text_addrs 100 c7port1 ',' service P =
      some (.error .formatError)) ∧
    (∀ service P, afs_parse_text_addrs 100 c7port2 ',' service P =
      some (.error .formatError)) ∧
    (∀ service P, afs_parse_text_addrs 100 c7disc ',' service P =
      some (.error .formatError)) := by
  refine ⟨?_, ?_, ?_, ?_, ?_, ?_⟩
  · intro fuel delim service port
    rfl
  · intro fuel text delim service port r h
    rw [afs_parse_text_addrs] at h
    split at h
    · obtain rfl := Option.some.inj h
      exact Or.inr (Or.inr rfl)
    · dsimp only at h
      split at h
      · exact Option.noConfusion h
      · rename_i e heq
        obtain rfl := Option.some.inj h
        rcases afs_count_loop_taxonomy text _ fuel 0 0 _ heq with ⟨k, hk⟩ | herr
        · exact Except.noConfusion hk
        · have he : e = AfsError.formatError := Except.error.inj herr
          exact Or.inr (Or.inl (by rw [he]))
      · exact (afs_extract_loop_taxonomy text _ port fuel 0 _ r h).imp id Or.inl
  · intro service P
    have h0 : ¬(c7bad.length = 0) := by decide
    have hd : afs_effective_delim c7bad ',' = ',' := by decide
    have hc : afs_count_loop c7bad ',' 100 0 0 = some (.ok 1) := by decide
    have f1 : ¬(chAt c7bad 0 = ',') := by decide
    have f2 : ¬(chAt c7bad 0 = '[') := by decide
    have f3 : findHostEnd c7bad ',' 0 = 14 := by decide
    have f4 : in4_pton (c7bad.take 14) = none := by decide
    have f5 : in6_pton (c7bad.take 14) = none := by decide
    rw [afs_parse_text_addrs, if_neg h0]
    simp only [hd, hc]
    rw [show (100 : Nat) = 99 + 1 from by norm_num, afs_extract_loop]
    simp [f1, f2, f3, f4, f5]
  · intro service P
    have h0 : ¬(c7port1.length = 0) := by decide
    have hd : afs_effective_delim c7port1 ',' = ',' := by decide
    have hc : afs_count_loop c7port1 ',' 100 0 0 = some (.ok 1) := by decide
    have f1 : ¬(chAt c7port1 0 = ',') := by decide
    have f2 : ¬(chAt c7port1 0 = '[') := by decide
    have f3 : findHostEnd c7port1 ',' 0 = 7 := by decide
    have f4 : in4_pton (c7port1.take 7) = some 16909060 := by decide
    have f5 : ¬(7 < c7port1.length ∧ chAt c7port1 7 = ']') := by decide
    have f6 : 7 < c7port1.length := by decide
    have f7 : chAt c7port1 7 = '+' := by decide
    have f8 : c7port1.length ≤ 8 := by decide
    rw [afs_parse_text_addrs, if_neg h0]
    simp only [hd, hc]
    rw [show (100 : Nat) = 99 + 1 from by norm_num, afs_extract_loop]
    simp [f1, f2, f3, f4, f5, f6, f7, f8]
  · intro service P
    have h0 : ¬(c7port2.length = 0) := by decide
    have hd : afs_effective_delim c7port2 ',' = ',' := by decide
    have hc : afs_count_loop c7port2 ',' 100 0 0 = some (.ok 1) := by decide
    have f1 : ¬(chAt c7port2 0 = ',') := by decide
    have f2 : ¬(chAt c7port2 0 = '[') := by decide
    have f3 : findHostEnd c7port2 ',' 0 = 7 := by decide
    have f4 : in4_pton (c7port2.take 7) = some 16909060 := by decide
    have f5 : ¬(7 < c7port2.length ∧ chAt c7port2 7 = ']') := by decide
    have f6 : 7 < c7port2.length := by decide
    have f7 : chAt c7port2 7 = '+' := by decide
    have f8 : ¬(c7port2.length ≤ 8 ∨ (chAt c7port2 8).isDigit = false) := by
      decide
    have f9 : afs_port_digits c7port2 (c7port2.length - 8) 8 0 =
        .error .formatError := by decide
    rw [afs_parse_text_addrs, if_neg h0]
    simp only [hd, hc]
    rw [show (100 : Nat) = 99 + 1 from by norm_num, afs_extract_loop]
    simp [f1, f2, f3, f4, f5, f6, f7, f8, f9]
  · intro service P
    have h0 : ¬(c7disc.length = 0) := by decide
    have hd : afs_effective_delim c7disc ',' = ',' := by decide
    have hc : afs_count_loop c7disc ',' 100 0 0 = some (.ok 2) := by decide
    have hm : afs_merge_fs_addr4 ⟨2, service, 0, [], 0⟩ 151587081 P =
        ⟨2, service, 1, [AfsEntry.v4 151587081 P], 0⟩ := by
      have hins : ins4 151587081 P 0 ([] : List AfsEntry) =
          some [AfsEntry.v4 151587081 P] := by simp [ins4]
      exact (merge4_eq_of_ins _ _ _ _
        (by simp [AfsAddrList.nr_addrs]) hins).trans rfl
    have f1 : ¬(chAt c7disc 0 = ',') := by decide
    have f2 : ¬(chAt c7disc 0 = '[') := by decide
    have f3 : findHostEnd c7disc ',' 0 = 7 := by decide
    have f4 : in4_pton (c7disc.take 7) = some 151587081 := by decide
    have f5 : ¬(7 < c7disc.length ∧ chAt c7disc 7 = ']') := by decide
    have f6 : 7 < c7disc.length := by decide
    have f7 : ¬(chAt c7disc 7 = '+') := by decide
    have f8 : chAt c7disc 7 = ',' := by decide
    have f9 : 8 < c7disc.length := by decide
    have g1 : ¬(chAt c7disc 8 = ',') := by decide
    have g2 : ¬(chAt c7disc 8 = '[') := by decide
    have g3 : findHostEnd c7disc ',' 8 = 9 := by decide
    have g4 : in4_pton ((c7disc.drop 8).take 1) = none := by decide
    have g5 : in6_pton ((c7disc.drop 8).take 1) = none := by decide
    rw [afs_parse_text_addrs, if_neg h0]
    simp only [hd, hc]
    rw [show afs_alloc_addrlist 2 service P = ⟨2, service, 0, [], 0⟩ from rfl]
    rw [show (100 : Nat) = 99 + 1 from by norm_num, afs_extract_loop]
    simp [f1, f2, f3, f4, f5, f6, f7, f8, f9, hm]
    rw [show (99 : Nat) = 98 + 1 from by norm_num, afs_extract_loop]
    simp [g1, g2, g3, g4, g5]

/-- C7 witness: the general taxonomy evaluated on the concrete text "x"
whose parse terminates with the invalid-format error. -/
theorem afs_parse_error_taxonomy_witness :
    afs_parse_text_addrs 5 (String.toList "x") ',' 0 0 =
      some (.error .formatError) ∧
    ((∃ al, (Except.error AfsError.formatError :
        Except AfsError AfsAddrList) = Except.ok al) ∨
      (Except.error AfsError.formatError :
        Except AfsError AfsAddrList) = Except.error AfsError.formatError ∨
      (Except.error AfsError.formatError :
        Except AfsError AfsAddrList) = Except.error AfsError.noDestination) :=
  ⟨by decide,
   afs_parse_error_taxonomy.2.1 5 (String.toList "x") ',' 0 0
     (Except.error AfsError.formatError) (by decide)⟩
